import Mathlib

/-!
Shallow embedding of the "space clockwork" engine (src/index.js).

Numbers: JS floats are modelled as exact rationals (ℚ).  The external
math library functions `Math.cos`, `Math.sin`, `Math.sqrt` and the
`degrees-radians` conversion are not part of this repository; they are
modelled as explicit function parameters `cosF sinF sqrtF radF : ℚ → ℚ`
threaded through the definitions (the engine only applies them, never
inspects them).

Randomness: the program draws from a `random-js` PRNG stream.  Each call
of `makeBranch` performs (up to) four draws:
`random.integer(100, 1500)` (only evaluated when `level !== 1`, because
of the conditional expression), `random.die(360)`, `random.die(4)` and
`random.pick([1, -1])`.  The PRNG is modelled as an oracle
`g : List ℕ → Draws` assigning to every branch — identified by its path
of child indices from the root of the `makeBranch` call tree — the
bundle of values those draws return.  Quantifying over all oracles
covers every possible draw sequence.
-/

namespace Clockwork

/-- The values returned by the four random draws made while constructing
one branch: `random.integer(100, 1500)`, `random.die(360)`,
`random.die(4)`, `random.pick([1, -1])` (src/index.js:65-67). -/
structure Draws where
  lenInt : ℤ
  die360 : ℤ
  die4 : ℤ
  pickSign : ℤ

/-- Level cap: const numLevels = 8 (src/index.js:26). -/
def numLevels : ℕ := 8

/-- The `Branch` Immutable.js record (src/index.js:13-23), with fields
`level, x, y, endX, endY, length, rotation, rotationChange, children`
in that order. -/
inductive Branch where
  | mk (level : ℕ) (x y endX endY length rot rotChange : ℚ)
      (children : List Branch)

namespace Branch

def level : Branch → ℕ
  | .mk l _ _ _ _ _ _ _ _ => l

def x : Branch → ℚ
  | .mk _ x _ _ _ _ _ _ _ => x

def y : Branch → ℚ
  | .mk _ _ y _ _ _ _ _ _ => y

def endX : Branch → ℚ
  | .mk _ _ _ ex _ _ _ _ _ => ex

def endY : Branch → ℚ
  | .mk _ _ _ _ ey _ _ _ _ => ey

def length : Branch → ℚ
  | .mk _ _ _ _ _ len _ _ _ => len

def rotation : Branch → ℚ
  | .mk _ _ _ _ _ _ r _ _ => r

def rotationChange : Branch → ℚ
  | .mk _ _ _ _ _ _ _ rc _ => rc

def children : Branch → List Branch
  | .mk _ _ _ _ _ _ _ _ cs => cs

/-- Functional update of the children field, modelling the
immutable-record set call at src/index.js:35. -/
def setChildren : Branch → List Branch → Branch
  | .mk l x y ex ey len r rc _, cs => .mk l x y ex ey len r rc cs

end Branch

/-- Source function nextBranchRotation(branch, speed)
(src/index.js:39-44). -/
def nextBranchRotation (branch : Branch) (speed : ℚ) : ℚ :=
  let next := branch.rotation + branch.rotationChange * speed
  if next > 360 then 0
  else if next < 0 then 360
  else next

/-- Source function updateBranch(branch, x, y, speed)
(src/index.js:46-60).  The merge keeps level, length and
rotationChange and replaces x, y, rotation, endX, endY, children. -/
def updateBranch (cosF sinF radF : ℚ → ℚ) :
    Branch → ℚ → ℚ → ℚ → Branch
  | branch, x, y, speed =>
    let length := branch.length
    let rot := nextBranchRotation branch speed
    let radian := radF rot
    let endX := x + (length * cosF radian)
    let endY := y + (length * sinF radian)
    Branch.mk branch.level x y endX endY length rot branch.rotationChange
      (branch.children.attach.map
        (fun c => updateBranch cosF sinF radF c.1 endX endY speed))
  termination_by b => sizeOf b
  decreasing_by
    cases branch
    have := List.sizeOf_lt_of_mem c.2
    simp only [Branch.children] at this
    simp
    omega

/-- The freshly constructed record `new Branch({level, length, rotation,
rotationChange})` of src/index.js:63-68; the remaining fields keep the
record defaults (`0` and the empty list).  For `level == 1` the length
conditional short-circuits and the `random.integer` draw is unused. -/
def initialBranch (level : ℕ) (d : Draws) : Branch :=
  Branch.mk level 0 0 0 0
    (if level = 1 then 0 else (1 / (level : ℚ)) * (d.lenInt : ℚ))
    (d.die360 : ℚ)
    ((d.die4 * d.pickSign : ℤ) : ℚ)
    []

/-- Source function makeBranch(level, x, y, speed) (src/index.js:62-70) with
`addChildren` (src/index.js:29-37) inlined: `addChildren` is applied to
`updateBranch(branch, x, y, speed)`, whose `level` field equals the
`level` argument (the merge preserves it — see `updateBranch_level`
below), so its `branch.level >= numLevels` test is the test
`numLevels ≤ level` here.  `childRange = Range(0, 2)` (src/index.js:27),
so `childRange.map(() => makeBranch(nextLevel, branch.endX, branch.endY,
speed))` makes two recursive calls, here distinguished by the child
index appended to the oracle path. -/
def makeBranch (g : List ℕ → Draws) (cosF sinF radF : ℚ → ℚ)
    (level : ℕ) (x y speed : ℚ) (p : List ℕ) : Branch :=
  let branch := initialBranch level (g p)
  let positioned := updateBranch cosF sinF radF branch x y speed
  if numLevels ≤ level then
    positioned
  else
    positioned.setChildren
      ((List.range 2).map
        (fun i => makeBranch g cosF sinF radF (level + 1)
          positioned.endX positioned.endY speed (p ++ [i])))
  termination_by numLevels + 1 - level
  decreasing_by omega

/-- The list of all branches of a tree: the root followed by all
branches of each child, in order. -/
def allBranches (b : Branch) : List Branch :=
  b :: (b.children.attach.map (fun c => allBranches c.1)).flatten
  termination_by sizeOf b
  decreasing_by
    cases b
    have := List.sizeOf_lt_of_mem c.2
    simp only [Branch.children] at this
    simp
    omega

/-- Depth of a branch tree: 1 for the node plus the maximal depth of a
child (0 if there are none). -/
def depth (b : Branch) : ℕ :=
  1 + (b.children.attach.map (fun c => depth c.1)).foldr max 0
  termination_by sizeOf b
  decreasing_by
    cases b
    have := List.sizeOf_lt_of_mem c.2
    simp only [Branch.children] at this
    simp
    omega

/-- The per-update-immutable part of a branch tree: everything except
`x, y, endX, endY, rotation`, recursively. -/
inductive Shape where
  | mk (level : ℕ) (length rotChange : ℚ) (children : List Shape)

def shape (b : Branch) : Shape :=
  .mk b.level b.length b.rotationChange
    (b.children.attach.map (fun c => shape c.1))
  termination_by sizeOf b
  decreasing_by
    cases b
    have := List.sizeOf_lt_of_mem c.2
    simp only [Branch.children] at this
    simp
    omega

/-- A sequence of `updateBranch` passes, each with its own origin and
speed, applied left to right. -/
def applyUpdates (cosF sinF radF : ℚ → ℚ) :
    Branch → List (ℚ × ℚ × ℚ) → Branch
  | b, [] => b
  | b, (x, y, s) :: rest =>
    applyUpdates cosF sinF radF (updateBranch cosF sinF radF b x y s) rest

mutual

/-- All branches of a tree, each paired with its path of child indices
relative to the path `p` of the root (matching the paths `makeBranch`
hands to the draw oracle). -/
def allBranchesP (p : List ℕ) (b : Branch) : List (List ℕ × Branch) :=
  (p, b) :: allChildrenP p 0 b.children
  termination_by sizeOf b
  decreasing_by
    cases b
    simp only [Branch.children]
    simp

def allChildrenP (p : List ℕ) (i : ℕ) :
    List Branch → List (List ℕ × Branch)
  | [] => []
  | c :: cs => allBranchesP (p ++ [i]) c ++ allChildrenP p (i + 1) cs
  termination_by cs => sizeOf cs
  decreasing_by
    all_goals simp
    all_goals omega

end

-- --- reducer (src/index.js:81-109) ---

/-- The keys of the Immutable.js state `Map` used by the reducer
(src/index.js:88-95). -/
structure AppState where
  windowWidth : ℚ
  windowHeight : ℚ
  width : ℚ
  height : ℚ
  tree : Branch
  speed : ℚ

/-- The three dispatched actions (src/index.js:75-77).  `INIT` carries
the `window.innerWidth`/`window.innerHeight` read at dispatch time and
the optional `action.speed`. -/
inductive ReduxAction where
  | INIT (speed : Option ℚ) (innerWidth innerHeight : ℚ)
  | NEXT_FRAME
  | MOVE (x y : ℚ)

/-- Source function reducer(state, action) (src/index.js:81-109).  In
the INIT case the JS or-expression between action.speed and the stored
speed falls back to the old speed when action.speed is absent or 0
(both falsy). -/
def reducer (g : List ℕ → Draws) (cosF sinF radF sqrtF : ℚ → ℚ)
    (state : AppState) : ReduxAction → AppState
  | .INIT sp innerW innerH =>
    let aspectRatio := innerW / innerH
    let width : ℚ := 2000
    let height := 2000 / aspectRatio
    let newSpeed :=
      match sp with
      | some s => if s = 0 then state.speed else s
      | none => state.speed
    { state with
        windowWidth := innerW
        windowHeight := innerH
        width := width
        height := height
        tree := makeBranch g cosF sinF radF 1 (width / 2) (height / 2) 1 []
        speed := newSpeed }
  | .NEXT_FRAME =>
    let rootX := state.width / 2
    let rootY := state.height / 2
    let speed := state.speed
    { state with
        tree := updateBranch cosF sinF radF state.tree rootX rootY speed }
  | .MOVE x y =>
    let xDist := x - state.windowWidth / 2
    let yDist := y - state.windowHeight / 2
    let dist := sqrtF (xDist * xDist + yDist * yDist)
    let factor := state.windowWidth / 3 * (if xDist < 0 then -1 else 1)
    { state with speed := dist / factor }

-- --- helper lemmas ---

/-- The branch after `updateBranch(branch, x, y, speed)` inside
`makeBranch` (src/index.js:69), before children are attached. -/
def positionedBranch (g : List ℕ → Draws) (cosF sinF radF : ℚ → ℚ)
    (level : ℕ) (x y speed : ℚ) (p : List ℕ) : Branch :=
  updateBranch cosF sinF radF (initialBranch level (g p)) x y speed

/-- The wraparound applied by `nextBranchRotation` (src/index.js:41-43),
factored over the raw next-rotation value. -/
def wrapRot (next : ℚ) : ℚ :=
  if next > 360 then 0
  else if next < 0 then 360
  else next

/-- A trivial stand-in for the external math functions, used to
instantiate witnesses. -/
def constZero : ℚ → ℚ := fun _ => 0

/-- The `(level, length)` pairs of all branches of a tree, in preorder. -/
def lengthsOf (b : Branch) : List (ℕ × ℚ) :=
  (b.level, b.length) ::
    (b.children.attach.map (fun c => lengthsOf c.1)).flatten
  termination_by sizeOf b
  decreasing_by
    cases b
    have := List.sizeOf_lt_of_mem c.2
    simp only [Branch.children] at this
    simp
    omega

/-- A fixed draw oracle for witnesses: every draw bundle is
`(100, 1, 1, 1)`. -/
def gConst : List ℕ → Draws := fun _ => ⟨100, 1, 1, 1⟩

/-- C6 counterexample oracle: the rotation seed of the root (die 360) is
`2` and its rotation change is `4 * (-1) = -4`, so the first update
step inside `makeBranch` computes `2 + (-4) * 1 = -2 < 0` and snaps the
stored rotation to exactly `360`. -/
def g360 : List ℕ → Draws := fun _ => ⟨100, 2, 4, -1⟩

section Lemmas

@[simp] theorem Branch.level_mk (l : ℕ) (x y ex ey len r rc : ℚ)
    (cs : List Branch) : (Branch.mk l x y ex ey len r rc cs).level = l := rfl

@[simp] theorem Branch.x_mk (l : ℕ) (x y ex ey len r rc : ℚ)
    (cs : List Branch) : (Branch.mk l x y ex ey len r rc cs).x = x := rfl

@[simp] theorem Branch.y_mk (l : ℕ) (x y ex ey len r rc : ℚ)
    (cs : List Branch) : (Branch.mk l x y ex ey len r rc cs).y = y := rfl

@[simp] theorem Branch.endX_mk (l : ℕ) (x y ex ey len r rc : ℚ)
    (cs : List Branch) : (Branch.mk l x y ex ey len r rc cs).endX = ex := rfl

@[simp] theorem Branch.endY_mk (l : ℕ) (x y ex ey len r rc : ℚ)
    (cs : List Branch) : (Branch.mk l x y ex ey len r rc cs).endY = ey := rfl

@[simp] theorem Branch.length_mk (l : ℕ) (x y ex ey len r rc : ℚ)
    (cs : List Branch) : (Branch.mk l x y ex ey len r rc cs).length = len := rfl

@[simp] theorem Branch.rotation_mk (l : ℕ) (x y ex ey len r rc : ℚ)
    (cs : List Branch) : (Branch.mk l x y ex ey len r rc cs).rotation = r := rfl

@[simp] theorem Branch.rotationChange_mk (l : ℕ) (x y ex ey len r rc : ℚ)
    (cs : List Branch) :
    (Branch.mk l x y ex ey len r rc cs).rotationChange = rc := rfl

@[simp] theorem Branch.children_mk (l : ℕ) (x y ex ey len r rc : ℚ)
    (cs : List Branch) : (Branch.mk l x y ex ey len r rc cs).children = cs := rfl

@[simp] theorem Branch.setChildren_mk (l : ℕ) (x y ex ey len r rc : ℚ)
    (cs cs' : List Branch) :
    (Branch.mk l x y ex ey len r rc cs).setChildren cs' =
      Branch.mk l x y ex ey len r rc cs' := rfl

/-- One-step unfolding of `updateBranch`, with the `attach` used for
termination eliminated in favour of a plain `List.map` as in the source. -/
theorem updateBranch_eq (cosF sinF radF : ℚ → ℚ) (b : Branch)
    (x y speed : ℚ) :
    updateBranch cosF sinF radF b x y speed =
      Branch.mk b.level x y
        (x + b.length * cosF (radF (nextBranchRotation b speed)))
        (y + b.length * sinF (radF (nextBranchRotation b speed)))
        b.length (nextBranchRotation b speed) b.rotationChange
        (b.children.map (fun c => updateBranch cosF sinF radF c
          (x + b.length * cosF (radF (nextBranchRotation b speed)))
          (y + b.length * sinF (radF (nextBranchRotation b speed))) speed)) := by
  rw [updateBranch]
  simp

/-- One-step unfolding of `makeBranch`. -/
theorem makeBranch_eq (g : List ℕ → Draws) (cosF sinF radF : ℚ → ℚ)
    (level : ℕ) (x y speed : ℚ) (p : List ℕ) :
    makeBranch g cosF sinF radF level x y speed p =
      (let positioned :=
        updateBranch cosF sinF radF (initialBranch level (g p)) x y speed
      if numLevels ≤ level then
        positioned
      else
        positioned.setChildren
          ((List.range 2).map
            (fun i => makeBranch g cosF sinF radF (level + 1)
              positioned.endX positioned.endY speed (p ++ [i])))) := by
  rw [makeBranch]

/-- Induction over the branch tree: to prove a property of every
`Branch`, prove it for each node assuming it for all children. -/
theorem Branch.ind {motive : Branch → Prop}
    (h : ∀ (l : ℕ) (x y ex ey len rot rc : ℚ) (cs : List Branch),
      (∀ c ∈ cs, motive c) → motive (.mk l x y ex ey len rot rc cs)) :
    ∀ b, motive b := by
  have key : ∀ (n : ℕ) (b : Branch), sizeOf b ≤ n → motive b := by
    intro n
    induction n with
    | zero =>
      intro b hb
      cases b with
      | mk l x y ex ey len rot rc cs => simp at hb
    | succ n ih =>
      intro b hb
      cases b with
      | mk l x y ex ey len rot rc cs =>
        apply h
        intro c hc
        apply ih
        have hlt := List.sizeOf_lt_of_mem hc
        simp at hb
        omega
  intro b
  exact key (sizeOf b) b le_rfl

end Lemmas

theorem allBranches_eq (b : Branch) :
    allBranches b = b :: (b.children.map allBranches).flatten := by
  rw [allBranches]
  simp

theorem self_mem_allBranches (b : Branch) : b ∈ allBranches b := by
  rw [allBranches_eq]
  exact List.mem_cons_self _ _

theorem mem_allBranches (b' b : Branch) :
    b' ∈ allBranches b ↔
      b' = b ∨ ∃ c ∈ b.children, b' ∈ allBranches c := by
  rw [allBranches_eq]
  simp only [List.mem_cons, List.mem_flatten, List.mem_map]
  constructor
  · rintro (rfl | ⟨l, ⟨c, hc, rfl⟩, hmem⟩)
    · exact Or.inl rfl
    · exact Or.inr ⟨c, hc, hmem⟩
  · rintro (rfl | ⟨c, hc, hmem⟩)
    · exact Or.inl rfl
    · exact Or.inr ⟨allBranches c, ⟨c, hc, rfl⟩, hmem⟩

theorem depth_eq (b : Branch) :
    depth b = 1 + (b.children.map depth).foldr max 0 := by
  rw [depth]
  simp

theorem shape_eq (b : Branch) :
    shape b = .mk b.level b.length b.rotationChange (b.children.map shape) := by
  rw [shape]
  simp

theorem self_mem_allBranchesP (p : List ℕ) (b : Branch) :
    (p, b) ∈ allBranchesP p b := by
  unfold allBranchesP
  exact List.mem_cons_self _ _

section Helpers

@[simp] theorem Branch.setChildren_level (b : Branch) (cs : List Branch) :
    (b.setChildren cs).level = b.level := by cases b; rfl

@[simp] theorem Branch.setChildren_x (b : Branch) (cs : List Branch) :
    (b.setChildren cs).x = b.x := by cases b; rfl

@[simp] theorem Branch.setChildren_y (b : Branch) (cs : List Branch) :
    (b.setChildren cs).y = b.y := by cases b; rfl

@[simp] theorem Branch.setChildren_endX (b : Branch) (cs : List Branch) :
    (b.setChildren cs).endX = b.endX := by cases b; rfl

@[simp] theorem Branch.setChildren_endY (b : Branch) (cs : List Branch) :
    (b.setChildren cs).endY = b.endY := by cases b; rfl

@[simp] theorem Branch.setChildren_length (b : Branch) (cs : List Branch) :
    (b.setChildren cs).length = b.length := by cases b; rfl

@[simp] theorem Branch.setChildren_rotation (b : Branch) (cs : List Branch) :
    (b.setChildren cs).rotation = b.rotation := by cases b; rfl

@[simp] theorem Branch.setChildren_rotationChange (b : Branch)
    (cs : List Branch) :
    (b.setChildren cs).rotationChange = b.rotationChange := by cases b; rfl

@[simp] theorem Branch.setChildren_children (b : Branch) (cs : List Branch) :
    (b.setChildren cs).children = cs := by cases b; rfl

@[simp] theorem updateBranch_level (cosF sinF radF : ℚ → ℚ) (b : Branch)
    (x y speed : ℚ) :
    (updateBranch cosF sinF radF b x y speed).level = b.level := by
  rw [updateBranch_eq]; rfl

@[simp] theorem updateBranch_x (cosF sinF radF : ℚ → ℚ) (b : Branch)
    (x y speed : ℚ) :
    (updateBranch cosF sinF radF b x y speed).x = x := by
  rw [updateBranch_eq]; rfl

@[simp] theorem updateBranch_y (cosF sinF radF : ℚ → ℚ) (b : Branch)
    (x y speed : ℚ) :
    (updateBranch cosF sinF radF b x y speed).y = y := by
  rw [updateBranch_eq]; rfl

@[simp] theorem updateBranch_length (cosF sinF radF : ℚ → ℚ) (b : Branch)
    (x y speed : ℚ) :
    (updateBranch cosF sinF radF b x y speed).length = b.length := by
  rw [updateBranch_eq]; rfl

@[simp] theorem updateBranch_rotation (cosF sinF radF : ℚ → ℚ) (b : Branch)
    (x y speed : ℚ) :
    (updateBranch cosF sinF radF b x y speed).rotation =
      nextBranchRotation b speed := by
  rw [updateBranch_eq]; rfl

@[simp] theorem updateBranch_rotationChange (cosF sinF radF : ℚ → ℚ)
    (b : Branch) (x y speed : ℚ) :
    (updateBranch cosF sinF radF b x y speed).rotationChange =
      b.rotationChange := by
  rw [updateBranch_eq]; rfl

theorem updateBranch_endX (cosF sinF radF : ℚ → ℚ) (b : Branch)
    (x y speed : ℚ) :
    (updateBranch cosF sinF radF b x y speed).endX =
      x + b.length * cosF (radF (nextBranchRotation b speed)) := by
  rw [updateBranch_eq]; rfl

theorem updateBranch_endY (cosF sinF radF : ℚ → ℚ) (b : Branch)
    (x y speed : ℚ) :
    (updateBranch cosF sinF radF b x y speed).endY =
      y + b.length * sinF (radF (nextBranchRotation b speed)) := by
  rw [updateBranch_eq]; rfl

theorem updateBranch_children (cosF sinF radF : ℚ → ℚ) (b : Branch)
    (x y speed : ℚ) :
    (updateBranch cosF sinF radF b x y speed).children =
      b.children.map (fun c => updateBranch cosF sinF radF c
        (updateBranch cosF sinF radF b x y speed).endX
        (updateBranch cosF sinF radF b x y speed).endY speed) := by
  conv_lhs => rw [updateBranch_eq]
  rw [updateBranch_endX, updateBranch_endY]
  rfl

@[simp] theorem positionedBranch_children (g : List ℕ → Draws)
    (cosF sinF radF : ℚ → ℚ) (level : ℕ) (x y speed : ℚ) (p : List ℕ) :
    (positionedBranch g cosF sinF radF level x y speed p).children = [] := by
  rw [positionedBranch, updateBranch_eq]
  simp [initialBranch]

/-- Closed form of `makeBranch`: the positioned branch with either no
children (`level >= numLevels`) or its two recursively built children. -/
theorem makeBranch_unfold (g : List ℕ → Draws) (cosF sinF radF : ℚ → ℚ)
    (level : ℕ) (x y speed : ℚ) (p : List ℕ) :
    makeBranch g cosF sinF radF level x y speed p =
      (positionedBranch g cosF sinF radF level x y speed p).setChildren
        (if numLevels ≤ level then []
         else
          [makeBranch g cosF sinF radF (level + 1)
            (positionedBranch g cosF sinF radF level x y speed p).endX
            (positionedBranch g cosF sinF radF level x y speed p).endY
            speed (p ++ [0]),
           makeBranch g cosF sinF radF (level + 1)
            (positionedBranch g cosF sinF radF level x y speed p).endX
            (positionedBranch g cosF sinF radF level x y speed p).endY
            speed (p ++ [1])]) := by
  have hr : List.range 2 = [0, 1] := rfl
  rw [makeBranch_eq, hr]
  simp only [positionedBranch]
  by_cases h : numLevels ≤ level
  · simp only [if_pos h]
    have hc : (updateBranch cosF sinF radF (initialBranch level (g p))
        x y speed).children = [] := by
      rw [updateBranch_eq]
      simp [initialBranch]
    generalize updateBranch cosF sinF radF (initialBranch level (g p))
      x y speed = b at hc ⊢
    cases b
    simp_all
  · simp only [if_neg h, List.map_cons, List.map_nil]

@[simp] theorem makeBranch_level (g : List ℕ → Draws)
    (cosF sinF radF : ℚ → ℚ) (level : ℕ) (x y speed : ℚ) (p : List ℕ) :
    (makeBranch g cosF sinF radF level x y speed p).level = level := by
  rw [makeBranch_unfold]
  simp [positionedBranch, initialBranch]

@[simp] theorem makeBranch_x (g : List ℕ → Draws)
    (cosF sinF radF : ℚ → ℚ) (level : ℕ) (x y speed : ℚ) (p : List ℕ) :
    (makeBranch g cosF sinF radF level x y speed p).x = x := by
  rw [makeBranch_unfold]
  simp [positionedBranch]

@[simp] theorem makeBranch_y (g : List ℕ → Draws)
    (cosF sinF radF : ℚ → ℚ) (level : ℕ) (x y speed : ℚ) (p : List ℕ) :
    (makeBranch g cosF sinF radF level x y speed p).y = y := by
  rw [makeBranch_unfold]
  simp [positionedBranch]

@[simp] theorem makeBranch_length (g : List ℕ → Draws)
    (cosF sinF radF : ℚ → ℚ) (level : ℕ) (x y speed : ℚ) (p : List ℕ) :
    (makeBranch g cosF sinF radF level x y speed p).length =
      (if level = 1 then 0 else (1 / (level : ℚ)) * ((g p).lenInt : ℚ)) := by
  rw [makeBranch_unfold]
  simp [positionedBranch, initialBranch]

@[simp] theorem makeBranch_rotation (g : List ℕ → Draws)
    (cosF sinF radF : ℚ → ℚ) (level : ℕ) (x y speed : ℚ) (p : List ℕ) :
    (makeBranch g cosF sinF radF level x y speed p).rotation =
      nextBranchRotation (initialBranch level (g p)) speed := by
  rw [makeBranch_unfold]
  simp [positionedBranch]

@[simp] theorem makeBranch_rotationChange (g : List ℕ → Draws)
    (cosF sinF radF : ℚ → ℚ) (level : ℕ) (x y speed : ℚ) (p : List ℕ) :
    (makeBranch g cosF sinF radF level x y speed p).rotationChange =
      (((g p).die4 * (g p).pickSign : ℤ) : ℚ) := by
  rw [makeBranch_unfold]
  simp [positionedBranch, initialBranch]

theorem makeBranch_endX (g : List ℕ → Draws)
    (cosF sinF radF : ℚ → ℚ) (level : ℕ) (x y speed : ℚ) (p : List ℕ) :
    (makeBranch g cosF sinF radF level x y speed p).endX =
      (positionedBranch g cosF sinF radF level x y speed p).endX := by
  rw [makeBranch_unfold]
  simp

theorem makeBranch_endY (g : List ℕ → Draws)
    (cosF sinF radF : ℚ → ℚ) (level : ℕ) (x y speed : ℚ) (p : List ℕ) :
    (makeBranch g cosF sinF radF level x y speed p).endY =
      (positionedBranch g cosF sinF radF level x y speed p).endY := by
  rw [makeBranch_unfold]
  simp

theorem makeBranch_children (g : List ℕ → Draws)
    (cosF sinF radF : ℚ → ℚ) (level : ℕ) (x y speed : ℚ) (p : List ℕ) :
    (makeBranch g cosF sinF radF level x y speed p).children =
      (if numLevels ≤ level then []
       else
        [makeBranch g cosF sinF radF (level + 1)
          (makeBranch g cosF sinF radF level x y speed p).endX
          (makeBranch g cosF sinF radF level x y speed p).endY
          speed (p ++ [0]),
         makeBranch g cosF sinF radF (level + 1)
          (makeBranch g cosF sinF radF level x y speed p).endX
          (makeBranch g cosF sinF radF level x y speed p).endY
          speed (p ++ [1])]) := by
  rw [makeBranch_endX, makeBranch_endY]
  conv_lhs => rw [makeBranch_unfold]
  simp

end Helpers

section MoreHelpers

theorem nextBranchRotation_eq_wrapRot (b : Branch) (speed : ℚ) :
    nextBranchRotation b speed =
      wrapRot (b.rotation + b.rotationChange * speed) := rfl

theorem wrapRot_mem_Icc (next : ℚ) :
    0 ≤ wrapRot next ∧ wrapRot next ≤ 360 := by
  rw [wrapRot]
  split_ifs with h1 h2
  · norm_num
  · norm_num
  · constructor <;> linarith

/-- The `shape` of a tree is untouched by a single `updateBranch` pass. -/
theorem shape_updateBranch (cosF sinF radF : ℚ → ℚ) (b : Branch)
    (x y speed : ℚ) :
    shape (updateBranch cosF sinF radF b x y speed) = shape b := by
  induction b using Branch.ind generalizing x y with
  | h l bx bY ex ey len rot rc cs ih =>
    rw [updateBranch_eq]
    rw [shape_eq, shape_eq]
    simp only [Branch.level_mk, Branch.length_mk, Branch.rotationChange_mk,
      Branch.children_mk, List.map_map]
    congr 1
    apply List.map_congr_left
    intro c hc
    exact ih c hc _ _

end MoreHelpers

-- --- claims ---

/-- C1: for every branch and speed the updated rotation is
`nextRotation = rotation + rotationChange * speed` snapped to `0` when
`nextRotation > 360`, to `360` when `nextRotation < 0`, and kept
unchanged otherwise; in particular `359 + 4*1 ↦ 0`, `2 + (-4)*1 ↦ 360`
and `10 + 4*1 ↦ 14`. -/
theorem C1_rotation_wraparound (b : Branch) (speed : ℚ) :
    (b.rotation + b.rotationChange * speed > 360 →
      nextBranchRotation b speed = 0) ∧
    (b.rotation + b.rotationChange * speed < 0 →
      nextBranchRotation b speed = 360) ∧
    (0 ≤ b.rotation + b.rotationChange * speed →
      b.rotation + b.rotationChange * speed ≤ 360 →
      nextBranchRotation b speed = b.rotation + b.rotationChange * speed) ∧
    nextBranchRotation (Branch.mk 0 0 0 0 0 0 359 4 []) 1 = 0 ∧
    nextBranchRotation (Branch.mk 0 0 0 0 0 0 2 (-4) []) 1 = 360 ∧
    nextBranchRotation (Branch.mk 0 0 0 0 0 0 10 4 []) 1 = 14 := by
  refine ⟨?_, ?_, ?_, ?_, ?_, ?_⟩
  · intro h
    simp only [nextBranchRotation]
    rw [if_pos h]
  · intro h
    simp only [nextBranchRotation]
    rw [if_neg (by linarith), if_pos h]
  · intro h0 h360
    simp only [nextBranchRotation]
    rw [if_neg (by linarith), if_neg (by linarith)]
  · norm_num [nextBranchRotation]
  · norm_num [nextBranchRotation]
  · norm_num [nextBranchRotation]

theorem C1_rotation_wraparound_witness :
    ((359 : ℚ) + 4 * 1 > 360 ∧
      nextBranchRotation (Branch.mk 0 0 0 0 0 0 359 4 []) 1 = 0) :=
  ⟨by norm_num,
    (C1_rotation_wraparound (Branch.mk 0 0 0 0 0 0 359 4 []) 1).1
      (by norm_num)⟩

/-- C2: every branch of the tree returned by `updateBranch` satisfies
`endX = x + length * cos(radians(rotation))` and
`endY = y + length * sin(radians(rotation))`, where `rotation` is the
stored (already wrapped) rotation of the branch — exactly, in the rational
model with the external `cos`, `sin` and degree-to-radian conversion
abstracted as arbitrary functions. -/
theorem C2_geometry_consistency (cosF sinF radF : ℚ → ℚ) (b : Branch)
    (x y speed : ℚ) :
    ∀ b' ∈ allBranches (updateBranch cosF sinF radF b x y speed),
      b'.endX = b'.x + b'.length * cosF (radF b'.rotation) ∧
      b'.endY = b'.y + b'.length * sinF (radF b'.rotation) := by
  induction b using Branch.ind generalizing x y with
  | h l bx bY ex ey len rot rc cs ih =>
    intro b' hb'
    rw [mem_allBranches] at hb'
    rcases hb' with rfl | ⟨c', hc', hb'⟩
    · rw [updateBranch_eq]
      simp
    · rw [updateBranch_children] at hc'
      simp only [List.mem_map, Branch.children_mk] at hc'
      obtain ⟨c, hc, rfl⟩ := hc'
      exact ih c hc _ _ b' hb'

theorem C2_geometry_consistency_witness :
    (updateBranch constZero constZero constZero
        (Branch.mk 8 0 0 0 0 5 10 1 []) 0 0 1) ∈
      allBranches (updateBranch constZero constZero constZero
        (Branch.mk 8 0 0 0 0 5 10 1 []) 0 0 1) ∧
    (updateBranch constZero constZero constZero
        (Branch.mk 8 0 0 0 0 5 10 1 []) 0 0 1).endX =
      (updateBranch constZero constZero constZero
        (Branch.mk 8 0 0 0 0 5 10 1 []) 0 0 1).x +
      (updateBranch constZero constZero constZero
        (Branch.mk 8 0 0 0 0 5 10 1 []) 0 0 1).length *
        constZero (constZero
          (updateBranch constZero constZero constZero
            (Branch.mk 8 0 0 0 0 5 10 1 []) 0 0 1).rotation) :=
  ⟨self_mem_allBranches _,
    (C2_geometry_consistency constZero constZero constZero
      (Branch.mk 8 0 0 0 0 5 10 1 []) 0 0 1 _ (self_mem_allBranches _)).1⟩

/-- C4: in the tree returned by `updateBranch`, the origin `x, y` of
every child equals the freshly computed `endX, endY` of its parent, at
every depth. -/
theorem C4_origin_propagation (cosF sinF radF : ℚ → ℚ) (b : Branch)
    (x y speed : ℚ) :
    ∀ b' ∈ allBranches (updateBranch cosF sinF radF b x y speed),
      ∀ c ∈ b'.children, c.x = b'.endX ∧ c.y = b'.endY := by
  induction b using Branch.ind generalizing x y with
  | h l bx bY ex ey len rot rc cs ih =>
    intro b' hb'
    rw [mem_allBranches] at hb'
    rcases hb' with rfl | ⟨c', hc', hb'⟩
    · intro c hc
      rw [updateBranch_children] at hc
      simp only [List.mem_map, Branch.children_mk] at hc
      obtain ⟨c0, _hc0, rfl⟩ := hc
      simp
    · rw [updateBranch_children] at hc'
      simp only [List.mem_map, Branch.children_mk] at hc'
      obtain ⟨c, hc, rfl⟩ := hc'
      exact ih c hc _ _ b' hb'

theorem C4_origin_propagation_witness :
    (updateBranch constZero constZero constZero
        (Branch.mk 7 0 0 0 0 3 10 1 [Branch.mk 8 0 0 0 0 5 20 1 []]) 0 0 1) ∈
      allBranches (updateBranch constZero constZero constZero
        (Branch.mk 7 0 0 0 0 3 10 1 [Branch.mk 8 0 0 0 0 5 20 1 []]) 0 0 1) ∧
    (updateBranch constZero constZero constZero
        (Branch.mk 8 0 0 0 0 5 20 1 [])
        (updateBranch constZero constZero constZero
          (Branch.mk 7 0 0 0 0 3 10 1 [Branch.mk 8 0 0 0 0 5 20 1 []]) 0 0 1).endX
        (updateBranch constZero constZero constZero
          (Branch.mk 7 0 0 0 0 3 10 1 [Branch.mk 8 0 0 0 0 5 20 1 []]) 0 0 1).endY
        1) ∈
      (updateBranch constZero constZero constZero
        (Branch.mk 7 0 0 0 0 3 10 1 [Branch.mk 8 0 0 0 0 5 20 1 []]) 0 0 1).children ∧
    (updateBranch constZero constZero constZero
        (Branch.mk 8 0 0 0 0 5 20 1 [])
        (updateBranch constZero constZero constZero
          (Branch.mk 7 0 0 0 0 3 10 1 [Branch.mk 8 0 0 0 0 5 20 1 []]) 0 0 1).endX
        (updateBranch constZero constZero constZero
          (Branch.mk 7 0 0 0 0 3 10 1 [Branch.mk 8 0 0 0 0 5 20 1 []]) 0 0 1).endY
        1).x =
      (updateBranch constZero constZero constZero
        (Branch.mk 7 0 0 0 0 3 10 1 [Branch.mk 8 0 0 0 0 5 20 1 []]) 0 0 1).endX := by
  have hmem : (updateBranch constZero constZero constZero
      (Branch.mk 8 0 0 0 0 5 20 1 [])
      (updateBranch constZero constZero constZero
        (Branch.mk 7 0 0 0 0 3 10 1 [Branch.mk 8 0 0 0 0 5 20 1 []]) 0 0 1).endX
      (updateBranch constZero constZero constZero
        (Branch.mk 7 0 0 0 0 3 10 1 [Branch.mk 8 0 0 0 0 5 20 1 []]) 0 0 1).endY
      1) ∈
      (updateBranch constZero constZero constZero
        (Branch.mk 7 0 0 0 0 3 10 1 [Branch.mk 8 0 0 0 0 5 20 1 []]) 0 0 1).children := by
    rw [updateBranch_children]
    simp
  exact ⟨self_mem_allBranches _, hmem,
    (C4_origin_propagation constZero constZero constZero
      (Branch.mk 7 0 0 0 0 3 10 1 [Branch.mk 8 0 0 0 0 5 20 1 []]) 0 0 1 _
      (self_mem_allBranches _) _ hmem).1⟩

/-- C5: any sequence of `updateBranch` passes (arbitrary origins and
speeds) leaves the `shape` of the tree — `level`, `length`,
`rotationChange` and the number and order of children, recursively —
unchanged; only `x, y, endX, endY, rotation` can differ. -/
theorem C5_update_preserves_shape (cosF sinF radF : ℚ → ℚ) (b : Branch)
    (updates : List (ℚ × ℚ × ℚ)) :
    shape (applyUpdates cosF sinF radF b updates) = shape b := by
  induction updates generalizing b with
  | nil => rfl
  | cons u rest ih =>
    obtain ⟨x, y, s⟩ := u
    rw [applyUpdates]
    rw [ih, shape_updateBranch]

section BuildHelpers

theorem makeBranch_leaf (g : List ℕ → Draws) (cosF sinF radF : ℚ → ℚ)
    (level : ℕ) (x y speed : ℚ) (p : List ℕ) (h : numLevels ≤ level) :
    (makeBranch g cosF sinF radF level x y speed p).children = [] := by
  rw [makeBranch_children, if_pos h]

theorem allBranches_of_children_nil {b : Branch} (h : b.children = []) :
    allBranches b = [b] := by
  rw [allBranches_eq, h]
  simp

theorem makeBranch_topology_aux (g : List ℕ → Draws)
    (cosF sinF radF : ℚ → ℚ) (speed : ℚ) :
    ∀ (n level : ℕ), numLevels + 1 - level ≤ n → ∀ (x y : ℚ) (p : List ℕ),
    ∀ b' ∈ allBranches (makeBranch g cosF sinF radF level x y speed p),
      (b'.level < numLevels → b'.children.length = 2) ∧
      (numLevels ≤ b'.level → b'.children = []) := by
  have leafCase : ∀ (level : ℕ), numLevels ≤ level → ∀ (x y : ℚ) (p : List ℕ),
      ∀ b' ∈ allBranches (makeBranch g cosF sinF radF level x y speed p),
        (b'.level < numLevels → b'.children.length = 2) ∧
        (numLevels ≤ b'.level → b'.children = []) := by
    intro level hlev x y p b' hb'
    rw [allBranches_of_children_nil
      (makeBranch_leaf g cosF sinF radF level x y speed p hlev)] at hb'
    simp at hb'
    subst hb'
    refine ⟨?_, ?_⟩
    · intro hlt
      rw [makeBranch_level] at hlt
      omega
    · intro _
      exact makeBranch_leaf g cosF sinF radF level x y speed p hlev
  intro n
  induction n with
  | zero =>
    intro level hn
    exact leafCase level (by omega)
  | succ n ih =>
    intro level hn x y p b' hb'
    by_cases hlev : numLevels ≤ level
    · exact leafCase level hlev x y p b' hb'
    · rw [mem_allBranches] at hb'
      rcases hb' with rfl | ⟨c, hc, hb'⟩
      · refine ⟨?_, ?_⟩
        · intro _
          rw [makeBranch_children, if_neg hlev]
          rfl
        · intro habs
          rw [makeBranch_level] at habs
          omega
      · rw [makeBranch_children, if_neg hlev] at hc
        simp only [List.mem_cons, List.not_mem_nil, or_false] at hc
        rcases hc with rfl | rfl
        · exact ih (level + 1) (by omega) _ _ _ b' hb'
        · exact ih (level + 1) (by omega) _ _ _ b' hb'

theorem makeBranch_depth_aux (g : List ℕ → Draws)
    (cosF sinF radF : ℚ → ℚ) (speed : ℚ) :
    ∀ (n level : ℕ), numLevels + 1 - level ≤ n → 1 ≤ level →
      level ≤ numLevels → ∀ (x y : ℚ) (p : List ℕ),
      depth (makeBranch g cosF sinF radF level x y speed p) =
        numLevels + 1 - level := by
  intro n
  induction n with
  | zero =>
    intro level hn h1 h8
    omega
  | succ n ih =>
    intro level hn h1 h8 x y p
    by_cases hlev : numLevels ≤ level
    · rw [depth_eq,
        makeBranch_leaf g cosF sinF radF level x y speed p hlev]
      simp
      omega
    · rw [depth_eq, makeBranch_children, if_neg hlev]
      simp only [List.map_cons, List.map_nil, List.foldr_cons, List.foldr_nil]
      rw [ih (level + 1) (by omega) (by omega) (by omega),
        ih (level + 1) (by omega) (by omega) (by omega)]
      omega

end BuildHelpers

/-- C3: in a tree built by `makeBranch` from level 1, every branch
whose level is below `numLevels = 8` has exactly 2 children, every
branch at level `numLevels` has no children, and the depth of the tree
is exactly `numLevels`. -/
theorem C3_topology_invariant (g : List ℕ → Draws)
    (cosF sinF radF : ℚ → ℚ) (x y speed : ℚ) (p : List ℕ) :
    (∀ b' ∈ allBranches (makeBranch g cosF sinF radF 1 x y speed p),
       (b'.level < numLevels → b'.children.length = 2) ∧
       (numLevels ≤ b'.level → b'.children = [])) ∧
    depth (makeBranch g cosF sinF radF 1 x y speed p) = numLevels := by
  constructor
  · exact makeBranch_topology_aux g cosF sinF radF speed numLevels 1
      (by norm_num [numLevels]) x y p
  · rw [makeBranch_depth_aux g cosF sinF radF speed numLevels 1
      (by norm_num [numLevels]) (by norm_num) (by norm_num [numLevels]) x y p]
    omega

theorem C3_topology_invariant_witness :
    (makeBranch gConst constZero constZero constZero 1 0 0 1 []).level <
      numLevels ∧
    (makeBranch gConst constZero constZero constZero 1 0 0 1
      []).children.length = 2 ∧
    depth (makeBranch gConst constZero constZero constZero 1 0 0 1 []) =
      numLevels :=
  ⟨by norm_num [numLevels],
    ((C3_topology_invariant gConst constZero constZero constZero 0 0 1 []).1 _
      (self_mem_allBranches _)).1 (by norm_num [numLevels]),
    (C3_topology_invariant gConst constZero constZero constZero 0 0 1 []).2⟩

section RotationRange

theorem updateBranch_rotation_range (cosF sinF radF : ℚ → ℚ) (b : Branch)
    (x y speed : ℚ) :
    ∀ b' ∈ allBranches (updateBranch cosF sinF radF b x y speed),
      0 ≤ b'.rotation ∧ b'.rotation ≤ 360 := by
  induction b using Branch.ind generalizing x y with
  | h l bx bY ex ey len rot rc cs ih =>
    intro b' hb'
    rw [mem_allBranches] at hb'
    rcases hb' with rfl | ⟨c', hc', hb'⟩
    · rw [updateBranch_rotation, nextBranchRotation_eq_wrapRot]
      exact wrapRot_mem_Icc _
    · rw [updateBranch_children] at hc'
      simp only [List.mem_map, Branch.children_mk] at hc'
      obtain ⟨c, hc, rfl⟩ := hc'
      exact ih c hc _ _ b' hb'

theorem makeBranch_rotation_range (g : List ℕ → Draws)
    (cosF sinF radF : ℚ → ℚ) (speed : ℚ) :
    ∀ (n level : ℕ), numLevels + 1 - level ≤ n → ∀ (x y : ℚ) (p : List ℕ),
    ∀ b' ∈ allBranches (makeBranch g cosF sinF radF level x y speed p),
      0 ≤ b'.rotation ∧ b'.rotation ≤ 360 := by
  have rootCase : ∀ (level : ℕ) (x y : ℚ) (p : List ℕ),
      0 ≤ (makeBranch g cosF sinF radF level x y speed p).rotation ∧
      (makeBranch g cosF sinF radF level x y speed p).rotation ≤ 360 := by
    intro level x y p
    rw [makeBranch_rotation, nextBranchRotation_eq_wrapRot]
    exact wrapRot_mem_Icc _
  intro n
  induction n with
  | zero =>
    intro level hn x y p b' hb'
    rw [allBranches_of_children_nil
      (makeBranch_leaf g cosF sinF radF level x y speed p (by omega))] at hb'
    simp at hb'
    subst hb'
    exact rootCase level x y p
  | succ n ih =>
    intro level hn x y p b' hb'
    by_cases hlev : numLevels ≤ level
    · rw [allBranches_of_children_nil
        (makeBranch_leaf g cosF sinF radF level x y speed p hlev)] at hb'
      simp at hb'
      subst hb'
      exact rootCase level x y p
    · rw [mem_allBranches] at hb'
      rcases hb' with rfl | ⟨c, hc, hb'⟩
      · exact rootCase level x y p
      · rw [makeBranch_children, if_neg hlev] at hc
        simp only [List.mem_cons, List.not_mem_nil, or_false] at hc
        rcases hc with rfl | rfl
        · exact ih (level + 1) (by omega) _ _ _ b' hb'
        · exact ih (level + 1) (by omega) _ _ _ b' hb'

end RotationRange

/-- C6 counterexample: it is not true that every branch of every built
tree has its rotation in the half-open interval `[0, 360)` — with the
oracle `g360` and speed `1`, the root of the built tree has rotation
exactly `360`. -/
theorem C6_counterexample :
    ¬ (∀ b' ∈ allBranches
        (makeBranch g360 constZero constZero constZero 1 0 0 1 []),
        0 ≤ b'.rotation ∧ b'.rotation < 360) := by
  intro h
  have hroot := (h _ (self_mem_allBranches _)).2
  rw [makeBranch_rotation] at hroot
  norm_num [nextBranchRotation, initialBranch, g360] at hroot

/-- C6 amended: for every branch of every tree produced by `makeBranch`
or by an `updateBranch` pass over any tree, the stored rotation lies in
the closed interval `[0, 360]` — the value `360` is reached (see the
counterexample), so the interval is closed, not half-open. -/
theorem C6_rotation_range (g : List ℕ → Draws) (cosF sinF radF : ℚ → ℚ)
    (x y speed : ℚ) (p : List ℕ) :
    (∀ b' ∈ allBranches (makeBranch g cosF sinF radF 1 x y speed p),
        0 ≤ b'.rotation ∧ b'.rotation ≤ 360) ∧
    (∀ (b : Branch) (x' y' s' : ℚ),
      ∀ b' ∈ allBranches (updateBranch cosF sinF radF b x' y' s'),
        0 ≤ b'.rotation ∧ b'.rotation ≤ 360) := by
  constructor
  · exact makeBranch_rotation_range g cosF sinF radF speed numLevels 1
      (by norm_num [numLevels]) x y p
  · intro b x' y' s'
    exact updateBranch_rotation_range cosF sinF radF b x' y' s'

theorem C6_rotation_range_witness :
    (0 ≤ (makeBranch gConst constZero constZero constZero 1 0 0 1
        []).rotation ∧
      (makeBranch gConst constZero constZero constZero 1 0 0 1
        []).rotation ≤ 360) ∧
    (0 ≤ (updateBranch constZero constZero constZero
        (Branch.mk 8 0 0 0 0 5 10 1 []) 0 0 1).rotation ∧
      (updateBranch constZero constZero constZero
        (Branch.mk 8 0 0 0 0 5 10 1 []) 0 0 1).rotation ≤ 360) :=
  ⟨(C6_rotation_range gConst constZero constZero constZero 0 0 1 []).1 _
      (self_mem_allBranches _),
    (C6_rotation_range gConst constZero constZero constZero 0 0 1 []).2
      (Branch.mk 8 0 0 0 0 5 10 1 []) 0 0 1 _ (self_mem_allBranches _)⟩

section Lengths

theorem lengthsOf_eq (b : Branch) :
    lengthsOf b = (b.level, b.length) ::
      (b.children.map lengthsOf).flatten := by
  rw [lengthsOf]
  simp

theorem lengthsOf_updateBranch (cosF sinF radF : ℚ → ℚ) (b : Branch)
    (x y speed : ℚ) :
    lengthsOf (updateBranch cosF sinF radF b x y speed) = lengthsOf b := by
  induction b using Branch.ind generalizing x y with
  | h l bx bY ex ey len rot rc cs ih =>
    rw [updateBranch_eq, lengthsOf_eq, lengthsOf_eq]
    simp only [Branch.level_mk, Branch.length_mk, Branch.children_mk,
      List.map_map]
    congr 2
    apply List.map_congr_left
    intro c hc
    exact ih c hc _ _

theorem lengthsOf_applyUpdates (cosF sinF radF : ℚ → ℚ) (b : Branch)
    (updates : List (ℚ × ℚ × ℚ)) :
    lengthsOf (applyUpdates cosF sinF radF b updates) = lengthsOf b := by
  induction updates generalizing b with
  | nil => rfl
  | cons u rest ih =>
    obtain ⟨x, y, s⟩ := u
    rw [applyUpdates, ih, lengthsOf_updateBranch]

theorem makeBranch_length_formula (g : List ℕ → Draws)
    (cosF sinF radF : ℚ → ℚ) (speed : ℚ)
    (hg : ∀ q : List ℕ, 100 ≤ (g q).lenInt ∧ (g q).lenInt < 1500) :
    ∀ (n level : ℕ), numLevels + 1 - level ≤ n → ∀ (x y : ℚ) (p : List ℕ),
    ∀ b' ∈ allBranches (makeBranch g cosF sinF radF level x y speed p),
      (b'.level = 1 → b'.length = 0) ∧
      (2 ≤ b'.level → ∃ U : ℤ, 100 ≤ U ∧ U < 1500 ∧
        b'.length = (1 / (b'.level : ℚ)) * (U : ℚ)) := by
  have rootCase : ∀ (level : ℕ) (x y : ℚ) (p : List ℕ),
      ((makeBranch g cosF sinF radF level x y speed p).level = 1 →
        (makeBranch g cosF sinF radF level x y speed p).length = 0) ∧
      (2 ≤ (makeBranch g cosF sinF radF level x y speed p).level →
        ∃ U : ℤ, 100 ≤ U ∧ U < 1500 ∧
          (makeBranch g cosF sinF radF level x y speed p).length =
            (1 / ((makeBranch g cosF sinF radF level x y speed
              p).level : ℚ)) * (U : ℚ)) := by
    intro level x y p
    simp only [makeBranch_level, makeBranch_length]
    constructor
    · intro h1
      rw [if_pos h1]
    · intro h2
      exact ⟨(g p).lenInt, (hg p).1, (hg p).2, by rw [if_neg (by omega)]⟩
  intro n
  induction n with
  | zero =>
    intro level hn x y p b' hb'
    rw [allBranches_of_children_nil
      (makeBranch_leaf g cosF sinF radF level x y speed p (by omega))] at hb'
    simp at hb'
    subst hb'
    exact rootCase level x y p
  | succ n ih =>
    intro level hn x y p b' hb'
    by_cases hlev : numLevels ≤ level
    · rw [allBranches_of_children_nil
        (makeBranch_leaf g cosF sinF radF level x y speed p hlev)] at hb'
      simp at hb'
      subst hb'
      exact rootCase level x y p
    · rw [mem_allBranches] at hb'
      rcases hb' with rfl | ⟨c, hc, hb'⟩
      · exact rootCase level x y p
      · rw [makeBranch_children, if_neg hlev] at hc
        simp only [List.mem_cons, List.not_mem_nil, or_false] at hc
        rcases hc with rfl | rfl
        · exact ih (level + 1) (by omega) _ _ _ b' hb'
        · exact ih (level + 1) (by omega) _ _ _ b' hb'

end Lengths

/-- C7: in a tree built by `makeBranch` from level 1, the root
(level 1) has length `0` — hence its endpoint coincides with its origin
— and every deeper branch has length `(1/level) * U` for the integer
`U` drawn for it, which lies in `[100, 1500)` whenever the draw oracle
respects that range; and no `updateBranch` pass ever changes any
length of any branch.  (The range of `U` is a contract on the external
random source — `random.integer(100, 1500)` of `random-js` — which is
not part of this repository; it enters as the hypothesis `hg`.) -/
theorem C7_length_formula (g : List ℕ → Draws) (cosF sinF radF : ℚ → ℚ)
    (x y speed : ℚ) (p : List ℕ)
    (hg : ∀ q : List ℕ, 100 ≤ (g q).lenInt ∧ (g q).lenInt < 1500) :
    (∀ b' ∈ allBranches (makeBranch g cosF sinF radF 1 x y speed p),
      (b'.level = 1 → b'.length = 0) ∧
      (2 ≤ b'.level → ∃ U : ℤ, 100 ≤ U ∧ U < 1500 ∧
        b'.length = (1 / (b'.level : ℚ)) * (U : ℚ))) ∧
    (makeBranch g cosF sinF radF 1 x y speed p).endX = x ∧
    (makeBranch g cosF sinF radF 1 x y speed p).endY = y ∧
    (∀ updates : List (ℚ × ℚ × ℚ),
      lengthsOf (applyUpdates cosF sinF radF
        (makeBranch g cosF sinF radF 1 x y speed p) updates) =
      lengthsOf (makeBranch g cosF sinF radF 1 x y speed p)) := by
  refine ⟨?_, ?_, ?_, ?_⟩
  · exact makeBranch_length_formula g cosF sinF radF speed hg numLevels 1
      (by norm_num [numLevels]) x y p
  · rw [makeBranch_endX, positionedBranch, updateBranch_endX]
    simp [initialBranch]
  · rw [makeBranch_endY, positionedBranch, updateBranch_endY]
    simp [initialBranch]
  · intro updates
    exact lengthsOf_applyUpdates cosF sinF radF _ updates

theorem C7_length_formula_witness :
    (100 ≤ (gConst []).lenInt ∧ (gConst []).lenInt < 1500) ∧
    (makeBranch gConst constZero constZero constZero 1 5 7 1 []).level = 1 ∧
    (makeBranch gConst constZero constZero constZero 1 5 7 1 []).length = 0 ∧
    2 ≤ (makeBranch gConst constZero constZero constZero 2
      (makeBranch gConst constZero constZero constZero 1 5 7 1 []).endX
      (makeBranch gConst constZero constZero constZero 1 5 7 1 []).endY
      1 [0]).level ∧
    (∃ U : ℤ, 100 ≤ U ∧ U < 1500 ∧
      (makeBranch gConst constZero constZero constZero 2
        (makeBranch gConst constZero constZero constZero 1 5 7 1 []).endX
        (makeBranch gConst constZero constZero constZero 1 5 7 1 []).endY
        1 [0]).length =
      (1 / ((makeBranch gConst constZero constZero constZero 2
        (makeBranch gConst constZero constZero constZero 1 5 7 1 []).endX
        (makeBranch gConst constZero constZero constZero 1 5 7 1 []).endY
        1 [0]).level : ℚ)) * (U : ℚ)) ∧
    (makeBranch gConst constZero constZero constZero 1 5 7 1 []).endX = 5 ∧
    lengthsOf (applyUpdates constZero constZero constZero
      (makeBranch gConst constZero constZero constZero 1 5 7 1 [])
      [(0, 0, 1)]) =
    lengthsOf (makeBranch gConst constZero constZero constZero 1 5 7 1 []) := by
  have hg : ∀ q : List ℕ, 100 ≤ (gConst q).lenInt ∧ (gConst q).lenInt < 1500 := by
    intro q
    constructor <;> norm_num [gConst]
  have hmemc : (makeBranch gConst constZero constZero constZero 2
      (makeBranch gConst constZero constZero constZero 1 5 7 1 []).endX
      (makeBranch gConst constZero constZero constZero 1 5 7 1 []).endY
      1 [0]) ∈
      allBranches (makeBranch gConst constZero constZero constZero 1 5 7 1 []) := by
    rw [mem_allBranches]
    right
    refine ⟨_, ?_, self_mem_allBranches _⟩
    rw [makeBranch_children]
    norm_num [numLevels]
  refine ⟨hg [], by simp, ?_, by simp, ?_, ?_, ?_⟩
  · exact ((C7_length_formula gConst constZero constZero constZero 5 7 1 []
      hg).1 _ (self_mem_allBranches _)).1 (by simp)
  · exact ((C7_length_formula gConst constZero constZero constZero 5 7 1 []
      hg).1 _ hmemc).2 (by simp)
  · exact (C7_length_formula gConst constZero constZero constZero 5 7 1 []
      hg).2.1
  · exact (C7_length_formula gConst constZero constZero constZero 5 7 1 []
      hg).2.2.2 [(0, 0, 1)]

section BuildPositions

theorem allBranchesP_eq (p : List ℕ) (b : Branch) :
    allBranchesP p b = (p, b) :: allChildrenP p 0 b.children := by
  rw [allBranchesP]

theorem C9_aux (g : List ℕ → Draws) (cosF sinF radF : ℚ → ℚ) (speed : ℚ) :
    ∀ (n level : ℕ), numLevels + 1 - level ≤ n → ∀ (x y : ℚ) (p : List ℕ),
    ∀ pb ∈ allBranchesP p (makeBranch g cosF sinF radF level x y speed p),
      pb.2.rotation =
        wrapRot (((g pb.1).die360 : ℚ) +
          (((g pb.1).die4 * (g pb.1).pickSign : ℤ) : ℚ) * speed) ∧
      pb.2.rotationChange = (((g pb.1).die4 * (g pb.1).pickSign : ℤ) : ℚ) ∧
      (∀ c ∈ pb.2.children, c.x = pb.2.endX ∧ c.y = pb.2.endY) := by
  have rootCase : ∀ (level : ℕ) (x y : ℚ) (p : List ℕ),
      (makeBranch g cosF sinF radF level x y speed p).rotation =
        wrapRot (((g p).die360 : ℚ) +
          (((g p).die4 * (g p).pickSign : ℤ) : ℚ) * speed) ∧
      (makeBranch g cosF sinF radF level x y speed p).rotationChange =
        (((g p).die4 * (g p).pickSign : ℤ) : ℚ) ∧
      (∀ c ∈ (makeBranch g cosF sinF radF level x y speed p).children,
        c.x = (makeBranch g cosF sinF radF level x y speed p).endX ∧
        c.y = (makeBranch g cosF sinF radF level x y speed p).endY) := by
    intro level x y p
    refine ⟨?_, makeBranch_rotationChange g cosF sinF radF level x y speed p, ?_⟩
    · rw [makeBranch_rotation, nextBranchRotation_eq_wrapRot]
      simp [initialBranch]
    · intro c hc
      rw [makeBranch_children] at hc
      by_cases hlev : numLevels ≤ level
      · rw [if_pos hlev] at hc
        simp at hc
      · rw [if_neg hlev] at hc
        simp only [List.mem_cons, List.not_mem_nil, or_false] at hc
        rcases hc with rfl | rfl <;> simp
  intro n
  induction n with
  | zero =>
    intro level hn x y p pb hpb
    rw [allBranchesP_eq,
      makeBranch_leaf g cosF sinF radF level x y speed p (by omega)] at hpb
    rw [allChildrenP] at hpb
    simp at hpb
    subst hpb
    exact rootCase level x y p
  | succ n ih =>
    intro level hn x y p pb hpb
    by_cases hlev : numLevels ≤ level
    · rw [allBranchesP_eq,
        makeBranch_leaf g cosF sinF radF level x y speed p hlev] at hpb
      rw [allChildrenP] at hpb
      simp at hpb
      subst hpb
      exact rootCase level x y p
    · rw [allBranchesP_eq, makeBranch_children, if_neg hlev] at hpb
      rw [allChildrenP, allChildrenP, allChildrenP] at hpb
      simp only [List.mem_cons, List.mem_append, List.not_mem_nil,
        or_false] at hpb
      rcases hpb with rfl | hpb | hpb
      · exact rootCase level x y p
      · exact ih (level + 1) (by omega) _ _ (p ++ [0]) pb hpb
      · have h01 : (0 : ℕ) + 1 = 1 := rfl
        rw [h01] at hpb
        exact ih (level + 1) (by omega) _ _ (p ++ [1]) pb hpb

end BuildPositions

/-- C9: in every tree returned by `makeBranch` — before any external
`update` — the stored rotation of each branch has already been advanced
one update step from its random rotation seed, i.e. it equals
`wrap(die360 + (die4 * pickSign) * speed)` for its own draw bundle, its
`rotationChange` is `die4 * pickSign`, and the `x, y` of each child
already equals the `endX, endY` of its parent, because `makeBranch` positions the
branch with the update geometry routine before generating children. -/
theorem C9_build_prepositioned (g : List ℕ → Draws)
    (cosF sinF radF : ℚ → ℚ) (level : ℕ) (x y speed : ℚ) (p : List ℕ) :
    ∀ pb ∈ allBranchesP p (makeBranch g cosF sinF radF level x y speed p),
      pb.2.rotation =
        wrapRot (((g pb.1).die360 : ℚ) +
          (((g pb.1).die4 * (g pb.1).pickSign : ℤ) : ℚ) * speed) ∧
      pb.2.rotationChange = (((g pb.1).die4 * (g pb.1).pickSign : ℤ) : ℚ) ∧
      (∀ c ∈ pb.2.children, c.x = pb.2.endX ∧ c.y = pb.2.endY) :=
  C9_aux g cosF sinF radF speed (numLevels + 1) level (by omega) x y p

theorem C9_build_prepositioned_witness :
    (makeBranch gConst constZero constZero constZero 1 0 0 1 []).rotation =
      wrapRot (((gConst []).die360 : ℚ) +
        (((gConst []).die4 * (gConst []).pickSign : ℤ) : ℚ) * 1) ∧
    (makeBranch gConst constZero constZero constZero 1 0 0 1
      []).rotationChange =
      (((gConst []).die4 * (gConst []).pickSign : ℤ) : ℚ) ∧
    (makeBranch gConst constZero constZero constZero 2
      (makeBranch gConst constZero constZero constZero 1 0 0 1 []).endX
      (makeBranch gConst constZero constZero constZero 1 0 0 1 []).endY
      1 [0]) ∈
      (makeBranch gConst constZero constZero constZero 1 0 0 1 []).children ∧
    (makeBranch gConst constZero constZero constZero 2
      (makeBranch gConst constZero constZero constZero 1 0 0 1 []).endX
      (makeBranch gConst constZero constZero constZero 1 0 0 1 []).endY
      1 [0]).x =
      (makeBranch gConst constZero constZero constZero 1 0 0 1 []).endX := by
  have hmemc : (makeBranch gConst constZero constZero constZero 2
      (makeBranch gConst constZero constZero constZero 1 0 0 1 []).endX
      (makeBranch gConst constZero constZero constZero 1 0 0 1 []).endY
      1 [0]) ∈
      (makeBranch gConst constZero constZero constZero 1 0 0 1 []).children := by
    rw [makeBranch_children]
    norm_num [numLevels]
  have hroot := C9_build_prepositioned gConst constZero constZero constZero
    1 0 0 1 [] _ (self_mem_allBranchesP [] _)
  exact ⟨hroot.1, hroot.2.1, hmemc, (hroot.2.2 _ hmemc).1⟩

/-- C8: a `MOVE` action sets the speed to `dist / factor`, where `dist`
is the (external-`sqrt`) distance from the viewport centre to the
pointer and `factor` is `windowWidth / 3` carrying the sign of
`x - windowWidth / 2`; consequently on an 800-wide viewport a pointer
10px left of centre (at centre height) yields a negative speed and
10px right of centre a positive one, for any `sqrt` that is positive
on the positive input `100`. -/
theorem C8_move_speed (g : List ℕ → Draws)
    (cosF sinF radF sqrtF : ℚ → ℚ) (st : AppState) (x y : ℚ)
    (hsq : 0 < sqrtF 100) :
    ((reducer g cosF sinF radF sqrtF st (.MOVE x y)).speed =
      sqrtF ((x - st.windowWidth / 2) * (x - st.windowWidth / 2) +
        (y - st.windowHeight / 2) * (y - st.windowHeight / 2)) /
      (st.windowWidth / 3 *
        (if x - st.windowWidth / 2 < 0 then -1 else 1))) ∧
    (x - st.windowWidth / 2 < 0 →
      st.windowWidth / 3 *
        (if x - st.windowWidth / 2 < 0 then (-1 : ℚ) else 1) =
        -(st.windowWidth / 3)) ∧
    (0 < x - st.windowWidth / 2 →
      st.windowWidth / 3 *
        (if x - st.windowWidth / 2 < 0 then (-1 : ℚ) else 1) =
        st.windowWidth / 3) ∧
    (∀ st2 : AppState, st2.windowWidth = 800 →
      (reducer g cosF sinF radF sqrtF st2
        (.MOVE 390 (st2.windowHeight / 2))).speed < 0 ∧
      0 < (reducer g cosF sinF radF sqrtF st2
        (.MOVE 410 (st2.windowHeight / 2))).speed) := by
  refine ⟨rfl, ?_, ?_, ?_⟩
  · intro h
    rw [if_pos h]
    ring
  · intro h
    rw [if_neg (by linarith)]
    ring
  · intro st2 hw
    constructor
    · show (let xDist := 390 - st2.windowWidth / 2
            let yDist := st2.windowHeight / 2 - st2.windowHeight / 2
            let dist := sqrtF (xDist * xDist + yDist * yDist)
            let factor := st2.windowWidth / 3 *
              (if xDist < 0 then -1 else 1)
            { st2 with speed := dist / factor } : AppState).speed < 0
      rw [hw]
      norm_num
      exact div_neg_of_pos_of_neg hsq (by norm_num)
    · show 0 < (let xDist := 410 - st2.windowWidth / 2
            let yDist := st2.windowHeight / 2 - st2.windowHeight / 2
            let dist := sqrtF (xDist * xDist + yDist * yDist)
            let factor := st2.windowWidth / 3 *
              (if xDist < 0 then -1 else 1)
            { st2 with speed := dist / factor } : AppState).speed
      rw [hw]
      norm_num
      exact hsq

theorem C8_move_speed_witness :
    0 < (fun _ : ℚ => (10 : ℚ)) 100 ∧
    (reducer gConst constZero constZero constZero (fun _ : ℚ => (10 : ℚ))
      (AppState.mk 800 600 2000 1500 (Branch.mk 1 0 0 0 0 0 0 0 []) 1)
      (.MOVE 390 ((AppState.mk 800 600 2000 1500
        (Branch.mk 1 0 0 0 0 0 0 0 []) 1).windowHeight / 2))).speed < 0 ∧
    0 < (reducer gConst constZero constZero constZero (fun _ : ℚ => (10 : ℚ))
      (AppState.mk 800 600 2000 1500 (Branch.mk 1 0 0 0 0 0 0 0 []) 1)
      (.MOVE 410 ((AppState.mk 800 600 2000 1500
        (Branch.mk 1 0 0 0 0 0 0 0 []) 1).windowHeight / 2))).speed := by
  have h := (C8_move_speed gConst constZero constZero constZero
    (fun _ : ℚ => (10 : ℚ))
    (AppState.mk 800 600 2000 1500 (Branch.mk 1 0 0 0 0 0 0 0 []) 1)
    0 0 (by norm_num)).2.2.2
    (AppState.mk 800 600 2000 1500 (Branch.mk 1 0 0 0 0 0 0 0 []) 1) rfl
  exact ⟨by norm_num, h.1, h.2⟩

/-- C10: a `MOVE` with the pointer exactly on the centre column
(`x = windowWidth / 2`, i.e. `xDist = 0`) takes the non-negative branch
of the sign choice, so the factor is `+windowWidth/3` (nonzero for a
positive viewport width) and the resulting speed is
`|y - windowHeight/2| / (windowWidth/3) ≥ 0`, assuming the external
`sqrt` returns `|v|` on the input `v * v` actually passed to it. -/
theorem C10_center_column (g : List ℕ → Draws)
    (cosF sinF radF sqrtF : ℚ → ℚ) (st : AppState) (x y : ℚ)
    (hx : x = st.windowWidth / 2) (hW : 0 < st.windowWidth)
    (hsq : sqrtF ((y - st.windowHeight / 2) * (y - st.windowHeight / 2)) =
      |y - st.windowHeight / 2|) :
    (if x - st.windowWidth / 2 < 0 then (-1 : ℚ) else 1) = 1 ∧
    st.windowWidth / 3 *
      (if x - st.windowWidth / 2 < 0 then (-1 : ℚ) else 1) ≠ 0 ∧
    (reducer g cosF sinF radF sqrtF st (.MOVE x y)).speed =
      |y - st.windowHeight / 2| / (st.windowWidth / 3) ∧
    0 ≤ (reducer g cosF sinF radF sqrtF st (.MOVE x y)).speed := by
  have hxd : x - st.windowWidth / 2 = 0 := by
    rw [hx]
    ring
  have hif : (if x - st.windowWidth / 2 < 0 then (-1 : ℚ) else 1) = 1 := by
    rw [hxd]
    norm_num
  have harg : (x - st.windowWidth / 2) * (x - st.windowWidth / 2) +
      (y - st.windowHeight / 2) * (y - st.windowHeight / 2) =
      (y - st.windowHeight / 2) * (y - st.windowHeight / 2) := by
    rw [hxd]
    ring
  have hsp : (reducer g cosF sinF radF sqrtF st (.MOVE x y)).speed =
      |y - st.windowHeight / 2| / (st.windowWidth / 3) := by
    show sqrtF ((x - st.windowWidth / 2) * (x - st.windowWidth / 2) +
        (y - st.windowHeight / 2) * (y - st.windowHeight / 2)) /
      (st.windowWidth / 3 *
        (if x - st.windowWidth / 2 < 0 then -1 else 1)) =
      |y - st.windowHeight / 2| / (st.windowWidth / 3)
    rw [harg, hsq, hif, mul_one]
  refine ⟨hif, ?_, hsp, ?_⟩
  · rw [hif, mul_one]
    positivity
  · rw [hsp]
    exact div_nonneg (abs_nonneg _) (by positivity)

theorem C10_center_column_witness :
    ((400 : ℚ) = (AppState.mk 800 600 2000 1500
      (Branch.mk 1 0 0 0 0 0 0 0 []) 1).windowWidth / 2) ∧
    ((0 : ℚ) < (AppState.mk 800 600 2000 1500
      (Branch.mk 1 0 0 0 0 0 0 0 []) 1).windowWidth) ∧
    ((fun _ : ℚ => (3 : ℚ))
      (((303 : ℚ) - (AppState.mk 800 600 2000 1500
        (Branch.mk 1 0 0 0 0 0 0 0 []) 1).windowHeight / 2) *
       ((303 : ℚ) - (AppState.mk 800 600 2000 1500
        (Branch.mk 1 0 0 0 0 0 0 0 []) 1).windowHeight / 2)) =
      |(303 : ℚ) - (AppState.mk 800 600 2000 1500
        (Branch.mk 1 0 0 0 0 0 0 0 []) 1).windowHeight / 2|) ∧
    (reducer gConst constZero constZero constZero
      (fun _ : ℚ => (3 : ℚ))
      (AppState.mk 800 600 2000 1500 (Branch.mk 1 0 0 0 0 0 0 0 []) 1)
      (.MOVE 400 303)).speed =
      |(303 : ℚ) - (AppState.mk 800 600 2000 1500
        (Branch.mk 1 0 0 0 0 0 0 0 []) 1).windowHeight / 2| /
      ((AppState.mk 800 600 2000 1500
        (Branch.mk 1 0 0 0 0 0 0 0 []) 1).windowWidth / 3) ∧
    0 ≤ (reducer gConst constZero constZero constZero
      (fun _ : ℚ => (3 : ℚ))
      (AppState.mk 800 600 2000 1500 (Branch.mk 1 0 0 0 0 0 0 0 []) 1)
      (.MOVE 400 303)).speed := by
  have h := C10_center_column gConst constZero constZero constZero
    (fun _ : ℚ => (3 : ℚ))
    (AppState.mk 800 600 2000 1500 (Branch.mk 1 0 0 0 0 0 0 0 []) 1)
    400 303 (by norm_num) (by norm_num) (by norm_num)
  exact ⟨by norm_num, by norm_num, by norm_num, h.2.2.1, h.2.2.2⟩

end Clockwork
